import Mathlib

/-!
Verification of the Bitcoin Historical Events calendar API core
(event store, tag extraction, filtered/paginated queries, and the
FTS5 search-index synchronization layer) against its specification.

The Go handlers of `main.go` and the SQL executed through GORM/SQLite
are embedded as pure Lean functions over an in-memory table
(`List Event`).  Machine integers are modelled as unbounded `Nat`/`Int`:
every quantity involved (page numbers, limits, counts, 32-bit ids) is
compared against its bound explicitly where the source does, and no
claim under study depends on 64-bit wrap-around.
-/

set_option maxRecDepth 8000

namespace CalendarApi

/-! ## Character and string primitives

`sqlLower` models SQLite's `LOWER()`, which folds ASCII letters only.
`goToLower` models Go's `strings.ToLower`, which is Unicode-aware; the
model maps ASCII and Cyrillic capitals (the two alphabets of the two
language variants of the dataset) and is the identity elsewhere. -/

/-- `A`–`Z` (code points 65–90). -/
def isAsciiUpper (c : Char) : Bool := 65 ≤ c.toNat && c.toNat ≤ 90

def asciiLowerChar (c : Char) : Char :=
  if isAsciiUpper c then Char.ofNat (c.toNat + 32) else c

def sqlLower (s : String) : String := String.mk (s.data.map asciiLowerChar)

/-- `А`–`Я` (code points 1040–1071); their lowercase forms are 32 higher,
as for ASCII. -/
def isCyrUpper (c : Char) : Bool := 1040 ≤ c.toNat && c.toNat ≤ 1071

def goLowerChar (c : Char) : Char :=
  if isAsciiUpper c then Char.ofNat (c.toNat + 32)
  else if isCyrUpper c then Char.ofNat (c.toNat + 32)
  else if c = 'Ё' then 'ё'
  else c

def goToLower (s : String) : String := String.mk (s.data.map goLowerChar)

/-- Numeric value of a list of decimal digit characters. -/
def digitsVal (ds : List Char) : Nat :=
  ds.foldl (fun a c => a * 10 + (c.toNat - '0'.toNat)) 0

/-- Largest Go `int64` value (the server is a 64-bit build: `int` =
`int64`). -/
def int64Max : Int := 9223372036854775807

/-- Smallest Go `int64` value. -/
def int64Min : Int := -9223372036854775808

/-- Two's-complement wrap-around of Go `int64` arithmetic. -/
def wrap64 (x : Int) : Int :=
  (x + 9223372036854775808) % 18446744073709551616 - 9223372036854775808

/-- `strconv`'s out-of-range handling: the value is clamped to the
`int64` limit of its sign and `ErrRange` is reported. -/
def atoiClamp (v : Int) : Int × Bool :=
  if v < int64Min then (int64Min, false)
  else if int64Max < v then (int64Max, false)
  else (v, true)

/-- Go's `strconv.Atoi`: an optional sign followed by one or more
decimal digits, range-checked against `int64`.  The second component is
`err == nil`; a syntax error carries value 0, a range error the clamped
limit. -/
def goAtoi (s : String) : Int × Bool :=
  match s.data with
  | [] => (0, false)
  | '+' :: ds =>
    if ds ≠ [] ∧ ds.all Char.isDigit then atoiClamp (digitsVal ds) else (0, false)
  | '-' :: ds =>
    if ds ≠ [] ∧ ds.all Char.isDigit then atoiClamp (-(digitsVal ds : Int)) else (0, false)
  | ds => if ds.all Char.isDigit then atoiClamp (digitsVal ds) else (0, false)

/-- Go's `strconv.ParseUint(id, 10, 32)`: decimal digits only, no sign,
value within the unsigned 32-bit range. -/
def parseUint32 (s : String) : Option Nat :=
  if s.data ≠ [] ∧ s.data.all Char.isDigit then
    if digitsVal s.data < 4294967296 then some (digitsVal s.data) else none
  else none

/-- Zero-pad the decimal representation of `n` to width `w`
(SQLite `strftime` field formatting). -/
def natPad (w n : Nat) : String :=
  String.mk (List.replicate (w - (Nat.repr n).length) '0' ++ (Nat.repr n).data)

/-! ## Data model -/

/-- Calendar date, as stored in the `date` column. -/
structure CalDate where
  year : Nat
  month : Nat
  day : Nat
deriving DecidableEq

/-- The zero value of Go's `time.Time` is January 1 of year 1. -/
def zeroDate : CalDate := ⟨1, 1, 1⟩

/-- strftime('%Y', date) -/
def fmtYear (d : CalDate) : String := natPad 4 d.year
/-- strftime('%m', date) -/
def fmtMonth (d : CalDate) : String := natPad 2 d.month
/-- strftime('%d', date) -/
def fmtDay (d : CalDate) : String := natPad 2 d.day

/-- The `Event` record of `database.go`.  `tags` is the raw `tags` column:
a JSON-array-encoded string for rows written through this API (Go field
`Tags string`), possibly SQL `NULL` (`none`) for legacy rows, which the
tag queries guard with `IS NOT NULL`.  Timestamps are abstract ticks. -/
structure Event where
  id : Nat
  date : CalDate
  title : String
  description : String
  tags : Option String
  media : String
  references : String
  createdAt : Nat
  updatedAt : Nat
deriving DecidableEq

/-- Key giving the column order of `date` (`ORDER BY date`): stored text
is `YYYY-MM-DD…`, whose lexicographic order is this numeric order. -/
def dateKey (d : CalDate) : Nat := (d.year * 100 + d.month) * 100 + d.day

/-- `ORDER BY date desc` comparison. -/
def dateDescRel (a b : Event) : Prop := dateKey b.date ≤ dateKey a.date

instance : DecidableRel dateDescRel := fun _ _ => Nat.decLe _ _

instance : IsTotal Event dateDescRel :=
  ⟨fun a b => (Nat.le_total (dateKey b.date) (dateKey a.date)).elim Or.inl Or.inr⟩

instance : IsTrans Event dateDescRel :=
  ⟨fun _ _ _ h1 h2 => le_trans h2 h1⟩

def sortByDateDesc (l : List Event) : List Event := l.insertionSort dateDescRel

/-! ## Pagination parameters -/

/-- `page, err := strconv.Atoi(pageStr); if err != nil || page < 1 { page = 1 }`
(tag and search handlers): a syntax *or range* error coerces to the
default. -/
def parsePageChecked (s : String) : Int :=
  if (goAtoi s).2 = false ∨ (goAtoi s).1 < 1 then 1 else (goAtoi s).1

/-- `limit, err := strconv.Atoi(limitStr); if err != nil || limit < 1 { limit = 20 }` -/
def parseLimitChecked (s : String) : Int :=
  if (goAtoi s).2 = false ∨ (goAtoi s).1 < 1 then 20 else (goAtoi s).1

/-- `page, _ := strconv.Atoi(pageStr); if page < 1 { page = 1 }`
(`getAllEventsHandler`): the error is discarded, so a syntax error
leaves the Go zero value 0 (coerced to 1) but a range error leaves the
clamped `int64` limit, which is used as the page. -/
def parsePageLoose (s : String) : Int :=
  if (goAtoi s).1 < 1 then 1 else (goAtoi s).1

/-- `limit, _ := strconv.Atoi(limitStr); if limit < 1 { limit = 20 }` -/
def parseLimitLoose (s : String) : Int :=
  if (goAtoi s).1 < 1 then 20 else (goAtoi s).1

/-- The `PaginationData` response structure of `main.go` (`int` /
`int64` fields). -/
structure PaginationData where
  currentPage : Int
  perPage : Int
  total : Int
  lastPage : Int
deriving DecidableEq

/-- The `PaginatedEventsResponse` structure of `main.go`. -/
structure PaginatedEvents where
  events : List Event
  pagination : PaginationData
deriving DecidableEq

/-- `totalPages := (totalEvents + int64(limit) - 1) / int64(limit)` in
`Nat`, the value the `int64` computation yields when it does not
overflow. -/
def goTotalPages (total limit : Nat) : Nat := (total + limit - 1) / limit

/-- Mathematical ceiling of `n / l`, the spec's `ceil(total_matching / page_size)`. -/
def ceilSpec (n l : Nat) : Nat := n / l + (if n % l = 0 then 0 else 1)

/-- `totalPages := (totalEvents + int64(limit) - 1) / int64(limit)` with
Go's `int64` wrap (a single wrap of the sum agrees with Go's stepwise
evaluation for a row count below 2^63, which SQLite guarantees) and
Go's truncated division (`Int.div`). -/
def goLastPage (total limit : Int) : Int := Int.tdiv (wrap64 (total + limit - 1)) limit

/-- The slice SQLite returns for GORM's `.Limit(limit).Offset(offset)`:
GORM emits `OFFSET` only for a positive offset, so a zero or negative
(wrapped) offset starts at the first row. -/
def sqlSlice (l : List Event) (offset limit : Int) : List Event :=
  ((l.drop (if 0 < offset then offset.toNat else 0)).take limit.toNat)

/-! ## get single event (`getEventHandler`) -/

inductive GetEventResult where
  | invalidId
  | notFound
  | ok (e : Event)
deriving DecidableEq

/-- `getEventHandler`: parse the id with `ParseUint(id, 10, 32)`
(parse failure → 400 `invalidId`), then `db.First` (no row → 404
`notFound`). -/
def getEventModel (idStr : String) (tbl : List Event) : GetEventResult :=
  match parseUint32 idStr with
  | none => .invalidId
  | some n =>
    match tbl.find? (fun e => e.id == n) with
    | none => .notFound
    | some e => .ok e

/-! ## list events with date filters

Current handler (`getAllEventsHandler` in `main.go`): non-empty
`year`/`month`/`day` parameters become `strftime` equality conditions
unconditionally; a single-character month or day is zero-padded first. -/

def pad2 (s : String) : String := if s.length = 1 then "0" ++ s else s

def currentFilter (yearStr monthStr dayStr : String) (e : Event) : Bool :=
  (yearStr == "" || fmtYear e.date == yearStr) &&
  (monthStr == "" || fmtMonth e.date == pad2 monthStr) &&
  (dayStr == "" || fmtDay e.date == pad2 dayStr)

def getAllEventsCurrent (tbl : List Event)
    (pageStr limitStr yearStr monthStr dayStr : String) : PaginatedEvents :=
  let page := parsePageLoose pageStr
  let limit := parseLimitLoose limitStr
  let offset := wrap64 ((page - 1) * limit)
  let matching := tbl.filter (currentFilter yearStr monthStr dayStr)
  let total : Int := matching.length
  { events := sqlSlice (sortByDateDesc matching) offset limit
    pagination :=
      { currentPage := page, perPage := limit, total := total
        lastPage := goLastPage total limit } }

/-- Earlier inline `/api/events` handler (the unnamed older `main.go` in
the repository): each filter value is validated (`Atoi`, and 1–12 / 1–31
for month/day) and an invalid value is ignored — no condition is added. -/
def oldYearCond (yearStr : String) (e : Event) : Bool :=
  if yearStr == "" then true
  else if (goAtoi yearStr).2 then fmtYear e.date == yearStr
  else true

def oldFormat2 (s : String) (v : Int) : String :=
  if v < 10 ∧ ¬s.startsWith "0" then "0" ++ s else s

def oldMonthCond (monthStr : String) (e : Event) : Bool :=
  if monthStr == "" then true
  else
    if (goAtoi monthStr).2 ∧ 1 ≤ (goAtoi monthStr).1 ∧ (goAtoi monthStr).1 ≤ 12 then
      fmtMonth e.date == oldFormat2 monthStr (goAtoi monthStr).1
    else true

def oldDayCond (dayStr : String) (e : Event) : Bool :=
  if dayStr == "" then true
  else
    if (goAtoi dayStr).2 ∧ 1 ≤ (goAtoi dayStr).1 ∧ (goAtoi dayStr).1 ≤ 31 then
      fmtDay e.date == oldFormat2 dayStr (goAtoi dayStr).1
    else true

def oldFilter (yearStr monthStr dayStr : String) (e : Event) : Bool :=
  oldYearCond yearStr e && oldMonthCond monthStr e && oldDayCond dayStr e

def getAllEventsOld (tbl : List Event)
    (pageStr limitStr yearStr monthStr dayStr : String) : PaginatedEvents :=
  let page := parsePageChecked pageStr
  let limit := parseLimitChecked limitStr
  let offset := wrap64 ((page - 1) * limit)
  let matching := tbl.filter (oldFilter yearStr monthStr dayStr)
  let total : Int := matching.length
  { events := sqlSlice (sortByDateDesc matching) offset limit
    pagination :=
      { currentPage := page, perPage := limit, total := total
        lastPage := if 0 < limit then goLastPage total limit else 0 } }

/-! ## events by tag (`getEventsByTagHandler`)

The handler builds `searchTerm := "%\"" + strings.ToLower(tagParam) + "\"%"`
and filters with `LOWER(tags) LIKE ?`.  `likeMatch` is SQLite's `LIKE`:
`%` matches any sequence, `_` any single character, and literal
characters compare ASCII-case-insensitively; `LOWER(NULL)` is `NULL`,
which never satisfies `LIKE`. -/

def likeCharEq (p c : Char) : Bool := asciiLowerChar p == asciiLowerChar c

def likeMatch : List Char → List Char → Bool
  | [], t => t.isEmpty
  | p :: ps, t =>
    if p = '%' then
      (List.range (t.length + 1)).any (fun n => likeMatch ps (t.drop n))
    else if p = '_' then
      (match t with
       | [] => false
       | _ :: ts => likeMatch ps ts)
    else
      (match t with
       | [] => false
       | c :: ts => likeCharEq p c && likeMatch ps ts)

/-- Literal (wildcard-free) `LIKE` segment match: equal length, pointwise
ASCII-case-insensitive equality. -/
def litMatch : List Char → List Char → Bool
  | [], [] => true
  | p :: ps, c :: cs => likeCharEq p c && litMatch ps cs
  | _, _ => false

/-- No ASCII capital letters among the characters. -/
def noAsciiUpper (cs : List Char) : Prop := ∀ c ∈ cs, isAsciiUpper c = false

/-- The tag contains neither `LIKE` wildcard. -/
def noWildcards (s : String) : Prop := ∀ c ∈ s.data, c ≠ '%' ∧ c ≠ '_'

def tagPattern (tag : String) : String := "%\"" ++ goToLower tag ++ "\"%"

def tagWhereFilter (tag : String) (e : Event) : Bool :=
  match e.tags with
  | none => false
  | some t => likeMatch (tagPattern tag).data (sqlLower t).data

def getEventsByTag (tbl : List Event) (tag pageStr limitStr : String) :
    Option PaginatedEvents :=
  if tag = "" then none
  else
    let page := parsePageChecked pageStr
    let limit := parseLimitChecked limitStr
    let offset := wrap64 ((page - 1) * limit)
    let matching := tbl.filter (tagWhereFilter tag)
    let total : Int := matching.length
    some
      { events := sqlSlice (sortByDateDesc matching) offset limit
        pagination :=
          { currentPage := page, perPage := limit, total := total
            lastPage := goLastPage total limit } }

/-- The spec's (and C7's) description of the tag filter, read with one
uniform lowercasing: the quoted lowercased tag occurs as a substring of
the lowercased raw tags text. -/
def claimTagMatch (tag t : String) : Prop :=
  ∃ pre suf : List Char,
    (goToLower t).data = pre ++ ('"' :: (goToLower tag).data ++ ['"']) ++ suf

/-- What the code actually tests (for a wildcard-free tag): the tag
lowercased by Go's Unicode `strings.ToLower`, surrounded by quotes,
occurring in the stored text lowercased only in its ASCII letters
(SQLite `LOWER`). -/
def mixedTagMatch (tag t : String) : Prop :=
  ∃ pre suf : List Char,
    (sqlLower t).data = pre ++ ('"' :: (goToLower tag).data ++ ['"']) ++ suf

/-! ## full-text search handler (`ftsSearchHandler`) -/

/-- `sanitizedQuery := strings.ReplaceAll(query, "\"", "\"\"")`:
each quotation mark is doubled, every other character is kept. -/
def sanitizeFtsChars : List Char → List Char
  | [] => []
  | c :: cs =>
    if c = '"' then '"' :: '"' :: sanitizeFtsChars cs
    else c :: sanitizeFtsChars cs

def sanitizeFtsQuery (q : String) : String := String.mk (sanitizeFtsChars q.data)

/-- Modelled from the spec: the characters of SQLite's FTS5 query grammar
that act as operators / punctuation outside a string literal (the grammar
itself is not part of this repository): `"` delimits phrases, `(`/`)`
group, `*` is the prefix operator, `:` the column filter, `^` the
first-token operator, `,` separates NEAR arguments, `+` joins phrases. -/
def ftsOperatorChar (c : Char) : Bool :=
  (['"', '(', ')', '*', ':', '^', ',', '+'] : List Char).contains c

/-- Modelled from the spec: the bareword keywords of the FTS5 query
grammar. -/
def ftsKeywords : List String := ["AND", "OR", "NOT", "NEAR"]

/-- A row of the `events_fts` FTS5 table (`rowid`, `title`,
`description`, `tags`). -/
structure FtsRow where
  rowid : Nat
  ftitle : String
  fdesc : String
  ftags : Option String
deriving DecidableEq

/-- What the synchronization triggers store for an event row. -/
def ftsRowOf (e : Event) : FtsRow := ⟨e.id, e.title, e.description, e.tags⟩

/-- `ftsSearchHandler` with the FTS5 match primitive abstracted as a row
predicate `p` and its relevance function as `rank` (the ranking itself is
delegated to the index; the claims under study do not depend on it).
An empty query is a 400 (`none`).  Rows are joined back to events by id,
ordered by rank (ascending — FTS5 rank is negative-better) and paginated. -/
def rankAscRel (rank : Nat → Int) (a b : Event) : Prop := rank a.id ≤ rank b.id

instance (rank : Nat → Int) : DecidableRel (rankAscRel rank) :=
  fun _ _ => Int.decLe _ _

instance (rank : Nat → Int) : IsTotal Event (rankAscRel rank) :=
  ⟨fun a b => Int.le_total (rank a.id) (rank b.id)⟩

instance (rank : Nat → Int) : IsTrans Event (rankAscRel rank) :=
  ⟨fun _ _ _ h1 h2 => le_trans h1 h2⟩

def ftsSearchModel (tbl : List Event) (rank : Nat → Int) (p : FtsRow → Bool)
    (q pageStr limitStr : String) : Option PaginatedEvents :=
  if q = "" then none
  else
    let page := parsePageChecked pageStr
    let limit := parseLimitChecked limitStr
    let offset := wrap64 ((page - 1) * limit)
    let matching := tbl.filter (fun e => p (ftsRowOf e))
    let total : Int := matching.length
    some
      { events := sqlSlice (matching.insertionSort (rankAscRel rank)) offset limit
        pagination :=
          { currentPage := page, perPage := limit, total := total
            lastPage := goLastPage total limit } }

/-- Relational semantics of the search query's `ORDER BY fts.rank` for
claim C9: an output list is valid when it contains exactly the matching
rows and consecutive ranks are nondecreasing.  SQL constrains the result
no further; in particular it does not fix the relative order of
equal-rank rows. -/
def searchOutputValid (rows : List FtsRow) (rank : Nat → Int)
    (p : FtsRow → Bool) (out : List FtsRow) : Prop :=
  out.Perm (rows.filter p) ∧
    out.Sorted (fun a b => rank a.rowid ≤ rank b.rowid)

/-! ## create / batch create (`createEventHandler`, `batchCreateEventsHandler`) -/

/-- Largest id currently in the table. -/
def maxId (tbl : List Event) : Nat := tbl.foldr (fun e m => max e.id m) 0

/-- SQLite's id assignment for an autoincrement insert with a zero key. -/
def nextId (tbl : List Event) : Nat := maxId tbl + 1

inductive CreateResult where
  | badRequest
  | storageError
  | created (e : Event) (tbl : List Event)
deriving DecidableEq

/-- `createEventHandler`: reject when `event.Title == "" || event.Date.IsZero()`;
otherwise `db.Create` assigns the id (when the body carried none) and the
`CreatedAt`/`UpdatedAt` timestamps and appends the row. -/
def createEventModel (body : Event) (tbl : List Event) (now : Nat) : CreateResult :=
  if body.title = "" ∨ body.date = zeroDate then .badRequest
  else if body.id ≠ 0 ∧ tbl.any (fun e => e.id == body.id) then .storageError
  else
    let e := { body with
                 id := if body.id = 0 then nextId tbl else body.id
                 createdAt := now, updatedAt := now }
    .created e (tbl ++ [e])

/-- Id and timestamp assignment for the rows of one batch insert:
`m` is the largest id seen so far (table plus earlier batch rows); a
zero-id row receives `m + 1`, an explicit id is kept, as SQLite assigns
rowids within one multi-row `INSERT`. -/
def assignIds : List Event → Nat → Nat → List Event
  | [], _, _ => []
  | b :: bs, m, now =>
    { b with id := if b.id = 0 then m + 1 else b.id
             createdAt := now, updatedAt := now }
      :: assignIds bs (max m (if b.id = 0 then m + 1 else b.id)) now

inductive BatchResult where
  | badRequest
  | storageError
  | created (added : Nat) (tbl : List Event)
deriving DecidableEq

/-- `batchCreateEventsHandler`: only the emptiness of the batch is
checked; the rows go to `db.Create(&events)` with no per-record
validation of title or date.  The insert is one atomic statement: if
any id (explicit, or assigned to a zero-id row) collides with an
existing row or another batch row, the primary-key constraint fails,
the handler answers 500 and nothing is persisted; otherwise it returns
`(events_added, new table)`. -/
def batchCreateModel (bodies : List Event) (tbl : List Event) (now : Nat) :
    BatchResult :=
  if bodies.isEmpty then .badRequest
  else
    let rows := assignIds bodies (maxId tbl) now
    if (tbl.map (fun e => e.id) ++ rows.map (fun e => e.id)).Nodup then
      .created bodies.length (tbl ++ rows)
    else .storageError

/-! ## FTS index synchronization (`InitDB` triggers, claim C2)

One language variant's store: the `events` table plus the `events_fts`
index.  The three triggers of `database.go` fire on every insert /
update / delete of an `events` row. -/

structure DBState where
  events : List Event
  fts : List FtsRow
deriving DecidableEq

/-- A partial-field update (`updateData` map of `updateEventHandler`);
absent fields are left unchanged, the id is the row key and not patched. -/
structure Patch where
  date : Option CalDate := none
  title : Option String := none
  description : Option String := none
  tags : Option (Option String) := none
  media : Option String := none
  references : Option String := none
deriving DecidableEq

def applyPatch (e : Event) (p : Patch) (now : Nat) : Event :=
  { e with
      date := p.date.getD e.date
      title := p.title.getD e.title
      description := p.description.getD e.description
      tags := p.tags.getD e.tags
      media := p.media.getD e.media
      references := p.references.getD e.references
      updatedAt := now }

inductive DbOp where
  | ins (e : Event)
  | upd (id : Nat) (p : Patch) (now : Nat)
  | del (id : Nat)

/-- One mutation of a variant's store, with its trigger side effect:
insert fires `events_after_insert` (index insert of the new text);
update first looks the row up (`db.First`; a missing id mutates nothing)
and fires `events_after_update` (index delete of the old id, reinsert of
the new text); delete fires `events_after_delete` per deleted row. -/
def applyOp (s : DBState) : DbOp → DBState
  | .ins e =>
    if s.events.any (fun x => x.id == e.id) then s
    else ⟨s.events ++ [e], s.fts ++ [ftsRowOf e]⟩
  | .upd i p now =>
    match s.events.find? (fun x => x.id == i) with
    | none => s
    | some e₀ =>
      let e1 := applyPatch e₀ p now
      ⟨s.events.map (fun x => if x.id == i then e1 else x),
       s.fts.filter (fun r => r.rowid != i) ++ [ftsRowOf e1]⟩
  | .del i =>
    ⟨s.events.filter (fun x => x.id != i), s.fts.filter (fun r => r.rowid != i)⟩

def initState : DBState := ⟨[], []⟩

def runOps (ops : List DbOp) : DBState := ops.foldl applyOp initState

/-- The index is synchronized with the table, and ids are unique. -/
def Synced (s : DBState) : Prop :=
  s.fts.Perm (s.events.map ftsRowOf) ∧ (s.events.map (fun e => e.id)).Nodup

/-- Ids of the rows a search with match predicate `p` reports
(`SELECT … JOIN events_fts fts ON e.id = fts.rowid WHERE events_fts MATCH ?`). -/
def searchIds (p : FtsRow → Bool) (s : DBState) : List Nat :=
  (s.fts.filter p).map (fun r => r.rowid)

/-! ## tag aggregation (`getTagsHandler`)

The handler runs one SQL query: `json_each(e.tags)` over rows whose
`tags` is non-NULL, non-empty, not `'[]'`, valid JSON and of type
array; elements that are JSON `null` or whose text `TRIM`s (spaces
only, SQLite's default) to the empty string are dropped; the remaining
element texts are `LOWER`ed, grouped, counted and ordered ascending.
The JSON parser below follows RFC 8259 as SQLite's `json_valid` does;
numeric-literal normalization of `CAST` is elided (raw text is kept). -/

def jsonWs (c : Char) : Bool := c = ' ' || c = '\t' || c = '\n' || c = '\r'

def skipWs : List Char → List Char
  | [] => []
  | c :: cs => if jsonWs c then skipWs cs else c :: cs

inductive Json where
  | jnull
  | jbool (b : Bool)
  | jnum (raw : String)
  | jstr (s : String)
  | jarr (elems : List Json)
  | jobj (fields : List (String × Json))

def hexVal (c : Char) : Option Nat :=
  if '0' ≤ c ∧ c ≤ '9' then some (c.toNat - '0'.toNat)
  else if 'a' ≤ c ∧ c ≤ 'f' then some (c.toNat - 'a'.toNat + 10)
  else if 'A' ≤ c ∧ c ≤ 'F' then some (c.toNat - 'A'.toNat + 10)
  else none

def escMap (e : Char) : Option Char :=
  if e = '"' then some '"'
  else if e = '\\' then some '\\'
  else if e = '/' then some '/'
  else if e = 'b' then some (Char.ofNat 8)
  else if e = 'f' then some (Char.ofNat 12)
  else if e = 'n' then some '\n'
  else if e = 'r' then some '\r'
  else if e = 't' then some '\t'
  else none

/-- Body of a JSON string after the opening quote: returns the decoded
characters and the input after the closing quote. -/
def parseStrBody : List Char → Option (List Char × List Char)
  | [] => none
  | '"' :: rest => some ([], rest)
  | '\\' :: e :: rest =>
    if e = 'u' then
      match rest with
      | a :: b :: c :: d :: rest2 =>
        match hexVal a, hexVal b, hexVal c, hexVal d with
        | some va, some vb, some vc, some vd =>
          let n := ((va * 16 + vb) * 16 + vc) * 16 + vd
          if n < 55296 ∨ 57344 ≤ n then
            (fun r => (Char.ofNat n :: r.1, r.2)) <$> parseStrBody rest2
          else none
        | _, _, _, _ => none
      | _ => none
    else
      match escMap e with
      | some c => (fun r => (c :: r.1, r.2)) <$> parseStrBody rest
      | none => none
  | c :: rest =>
    if c.toNat < 32 then none
    else (fun r => (c :: r.1, r.2)) <$> parseStrBody rest

def takeDigits : List Char → (List Char × List Char)
  | [] => ([], [])
  | c :: cs =>
    if c.isDigit then
      let r := takeDigits cs
      (c :: r.1, r.2)
    else ([], c :: cs)

def parseIntPart : List Char → Option (List Char × List Char)
  | [] => none
  | c :: cs =>
    if c = '0' then some ([c], cs)
    else if c.isDigit then
      let r := takeDigits cs
      some (c :: r.1, r.2)
    else none

def parseFracPart : List Char → Option (List Char × List Char)
  | '.' :: cs =>
    (match takeDigits cs with
     | ([], _) => none
     | (ds, rest) => some ('.' :: ds, rest))
  | cs => some ([], cs)

def parseExpPart : List Char → Option (List Char × List Char)
  | [] => some ([], [])
  | c :: cs =>
    if c = 'e' ∨ c = 'E' then
      match cs with
      | [] => none
      | s :: cs2 =>
        if s = '+' ∨ s = '-' then
          match takeDigits cs2 with
          | ([], _) => none
          | (ds, rest) => some (c :: s :: ds, rest)
        else
          match takeDigits (s :: cs2) with
          | ([], _) => none
          | (ds, rest) => some (c :: ds, rest)
    else some ([], c :: cs)

def parseNumber (cs : List Char) : Option (List Char × List Char) :=
  let sr : List Char × List Char :=
    match cs with
    | '-' :: rest => (['-'], rest)
    | _ => ([], cs)
  match parseIntPart sr.2 with
  | none => none
  | some (ip, cs2) =>
    match parseFracPart cs2 with
    | none => none
    | some (fp, cs3) =>
      match parseExpPart cs3 with
      | none => none
      | some (ep, cs4) => some (sr.1 ++ ip ++ fp ++ ep, cs4)

/-- One fueled recursive parser: mode 0 parses one JSON value, mode 1
the elements of a non-empty array (packaged as `.jarr`), mode 2 the
members of a non-empty object (packaged as `.jobj`). -/
def parseCore : Nat → Nat → List Char → Option (Json × List Char)
  | 0, _, _ => none
  | fuel + 1, 0, cs =>
    (match skipWs cs with
     | 'n' :: 'u' :: 'l' :: 'l' :: rest => some (.jnull, rest)
     | 't' :: 'r' :: 'u' :: 'e' :: rest => some (.jbool true, rest)
     | 'f' :: 'a' :: 'l' :: 's' :: 'e' :: rest => some (.jbool false, rest)
     | '"' :: rest =>
       (match parseStrBody rest with
        | some (chars, rest2) => some (.jstr (String.mk chars), rest2)
        | none => none)
     | '[' :: rest =>
       (match skipWs rest with
        | ']' :: rest2 => some (.jarr [], rest2)
        | _ => parseCore fuel 1 rest)
     | '{' :: rest =>
       (match skipWs rest with
        | '}' :: rest2 => some (.jobj [], rest2)
        | _ => parseCore fuel 2 rest)
     | cs2 =>
       match parseNumber cs2 with
       | some (raw, rest) => some (.jnum (String.mk raw), rest)
       | none => none)
  | fuel + 1, 1, cs =>
    (match parseCore fuel 0 cs with
     | none => none
     | some (j, rest) =>
       match skipWs rest with
       | ',' :: rest2 =>
         (match parseCore fuel 1 rest2 with
          | some (Json.jarr js, rest3) => some (.jarr (j :: js), rest3)
          | _ => none)
       | ']' :: rest2 => some (.jarr [j], rest2)
       | _ => none)
  | fuel + 1, 2, cs =>
    (match skipWs cs with
     | '"' :: rest =>
       (match parseStrBody rest with
        | none => none
        | some (key, rest2) =>
          match skipWs rest2 with
          | ':' :: rest3 =>
            (match parseCore fuel 0 rest3 with
             | none => none
             | some (v, rest4) =>
               match skipWs rest4 with
               | ',' :: rest5 =>
                 (match parseCore fuel 2 rest5 with
                  | some (Json.jobj fs, rest6) =>
                    some (.jobj ((String.mk key, v) :: fs), rest6)
                  | _ => none)
               | '}' :: rest5 => some (.jobj [(String.mk key, v)], rest5)
               | _ => none)
          | _ => none)
     | _ => none)
  | _ + 1, _, _ => none

/-- `json_valid` / top-level parse: the whole string must be one JSON
value up to surrounding whitespace. -/
def jsonParse (s : String) : Option Json :=
  match parseCore (2 * s.data.length + 4) 0 s.data with
  | some (j, rest) => if skipWs rest = [] then some j else none
  | none => none

def hexDigit (n : Nat) : Char :=
  if n < 10 then Char.ofNat ('0'.toNat + n) else Char.ofNat ('a'.toNat + n - 10)

def serEscChar (c : Char) : List Char :=
  if c = '"' then ['\\', '"']
  else if c = '\\' then ['\\', '\\']
  else if c.toNat < 32 then
    ['\\', 'u', '0', '0', hexDigit (c.toNat / 16), hexDigit (c.toNat % 16)]
  else [c]

def serJStr (s : String) : String :=
  "\"" ++ String.mk (s.data.flatMap serEscChar) ++ "\""

mutual

/-- Compact JSON text of a value, used for the `CAST` of composite
`json_each` children. -/
def serializeJson : Json → String
  | .jnull => "null"
  | .jbool true => "true"
  | .jbool false => "false"
  | .jnum raw => raw
  | .jstr s => serJStr s
  | .jarr es => "[" ++ serJsonList es ++ "]"
  | .jobj fs => "\x7b" ++ serJsonFields fs ++ "\x7d"

def serJsonList : List Json → String
  | [] => ""
  | [j] => serializeJson j
  | j :: js => serializeJson j ++ "," ++ serJsonList js

def serJsonFields : List (String × Json) → String
  | [] => ""
  | [(k, v)] => serJStr k ++ ":" ++ serializeJson v
  | (k, v) :: fs => serJStr k ++ ":" ++ serializeJson v ++ "," ++ serJsonFields fs

end

/-- `CAST(j.value AS TEXT)` guarded by `j.value IS NOT NULL`: a JSON
`null` element is SQL `NULL` (`none`); booleans become `1`/`0`; a
number keeps its literal text; a string its decoded text; composite
children their JSON text. -/
def jsonAtomText : Json → Option String
  | .jnull => none
  | .jbool b => some (if b then "1" else "0")
  | .jnum raw => some raw
  | .jstr s => some s
  | .jarr es => some (serializeJson (.jarr es))
  | .jobj fs => some (serializeJson (.jobj fs))

def dropSpaces : List Char → List Char
  | [] => []
  | c :: cs => if c = ' ' then dropSpaces cs else c :: cs

/-- SQLite `TRIM(X)`: removes space characters (U+0020 only) from both
ends. -/
def sqlTrim (s : String) : String :=
  String.mk ((dropSpaces (dropSpaces s.data).reverse).reverse)

/-- The element texts one row contributes to the tag aggregation, before
lowercasing (the `WHERE` clauses of the handler's query). -/
def rowTagEntries (tags : Option String) : List String :=
  match tags with
  | none => []
  | some t =>
    if t = "" ∨ t = "[]" then []
    else
      match jsonParse t with
      | some (Json.jarr vs) =>
        (vs.filterMap jsonAtomText).filter (fun s => sqlTrim s ≠ "")
      | _ => []

def rowTagsLowered (e : Event) : List String :=
  (rowTagEntries e.tags).map sqlLower

/-- Lexicographic order on code points: SQLite's default BINARY
collation on UTF-8 text (byte order equals code-point order). -/
def charListLe : List Char → List Char → Bool
  | [], _ => true
  | _ :: _, [] => false
  | a :: as, b :: bs =>
    if a.toNat < b.toNat then true
    else if b.toNat < a.toNat then false
    else charListLe as bs

def strLe (a b : String) : Prop := charListLe a.data b.data = true

instance : DecidableRel strLe :=
  fun a b => inferInstanceAs (Decidable (charListLe a.data b.data = true))

instance : IsTotal String strLe :=
  ⟨fun a b => by
    have h : ∀ x y : List Char, charListLe x y = true ∨ charListLe y x = true := by
      intro x
      induction x with
      | nil => intro y; left; rfl
      | cons a as ih =>
        intro y
        cases y with
        | nil => right; rfl
        | cons b bs =>
          by_cases h1 : a.toNat < b.toNat
          · left; simp [charListLe, h1]
          · by_cases h2 : b.toNat < a.toNat
            · right; simp [charListLe, h2]
            · rcases ih bs with h3 | h3
              · left; simp [charListLe, h1, h2, h3]
              · right; simp [charListLe, h1, h2, h3]
    exact h a.data b.data⟩

instance : IsTrans String strLe :=
  ⟨fun a b c hab hbc => by
    have h : ∀ x y z : List Char, charListLe x y = true → charListLe y z = true →
        charListLe x z = true := by
      intro x
      induction x with
      | nil => intro y z _ _; rfl
      | cons a as ih =>
        intro y z hxy hyz
        cases y with
        | nil => simp [charListLe] at hxy
        | cons b bs =>
          cases z with
          | nil => simp [charListLe] at hyz
          | cons c cs =>
            simp only [charListLe] at hxy hyz ⊢
            by_cases h1 : a.toNat < b.toNat
            · by_cases h2 : b.toNat < c.toNat
              · rw [if_pos (show a.toNat < c.toNat by omega)]
              · by_cases h4 : c.toNat < b.toNat
                · rw [if_neg h2, if_pos h4] at hyz; simp at hyz
                · rw [if_pos (show a.toNat < c.toNat by omega)]
            · by_cases h5 : b.toNat < a.toNat
              · rw [if_neg h1, if_pos h5] at hxy; simp at hxy
              · rw [if_neg h1, if_neg h5] at hxy
                by_cases h2 : b.toNat < c.toNat
                · rw [if_pos (show a.toNat < c.toNat by omega)]
                · by_cases h4 : c.toNat < b.toNat
                  · rw [if_neg h2, if_pos h4] at hyz; simp at hyz
                  · rw [if_neg h2, if_neg h4] at hyz
                    rw [if_neg (show ¬ a.toNat < c.toNat by omega),
                      if_neg (show ¬ c.toNat < a.toNat by omega)]
                    exact ih bs cs hxy hyz
    exact h a.data b.data c.data hab hbc⟩

def sortStrings (l : List String) : List String := l.insertionSort strLe

/-- `getTagsHandler`: `SELECT LOWER(j.value), COUNT(*) … GROUP BY
LOWER(j.value) ORDER BY tag ASC`. -/
def getTagsModel (tbl : List Event) : List (String × Nat) :=
  let entries := tbl.flatMap rowTagsLowered
  (sortStrings entries).dedup.map (fun t => (t, entries.count t))

/-- The extraction rule as claim C4 states it: entries that are empty or
*whitespace*-only (any of space, tab, LF, CR) contribute nothing. -/
def rowTagEntriesClaim (tags : Option String) : List String :=
  match tags with
  | none => []
  | some t =>
    if t = "" ∨ t = "[]" then []
    else
      match jsonParse t with
      | some (Json.jarr vs) =>
        (vs.filterMap jsonAtomText).filter (fun s => !s.data.all jsonWs)
      | _ => []

def getTagsClaimStated (tbl : List Event) : List (String × Nat) :=
  let entries := tbl.flatMap (fun e => (rowTagEntriesClaim e.tags).map sqlLower)
  (sortStrings entries).dedup.map (fun t => (t, entries.count t))

/-! ## Concrete rows used by the evaluation theorems -/

def sampleEvent : Event :=
  { id := 1, date := ⟨2021, 6, 15⟩, title := "Taproot locked in"
    description := "", tags := some "[]", media := "", references := ""
    createdAt := 0, updatedAt := 0 }

/-- A row whose `tags` array holds a single tab character (JSON `"\t"`). -/
def tabTagEvent : Event := { sampleEvent with id := 2, tags := some "[\"\\t\"]" }

/-- A row tagged with a capitalized Cyrillic tag. -/
def cyrTagEvent : Event := { sampleEvent with id := 3, tags := some "[\"Лайтнинг\"]" }

/-- A row with plain ASCII tags. -/
def adoptionEvent : Event :=
  { sampleEvent with id := 4, tags := some "[\"first\",\"adoption\"]" }

/-- Two FTS rows with identical text (hence identical relevance rank). -/
def ftsRowA : FtsRow := ⟨1, "halving", "", none⟩

def ftsRowB : FtsRow := ⟨2, "halving", "", none⟩

/-! # Theorems -/

theorem toNat_ofNat_of_small {n : Nat} (h : n < 55296) : (Char.ofNat n).toNat = n := by
  rw [Char.ofNat, dif_pos (Or.inl h)]
  rfl

theorem isAsciiUpper_asciiLowerChar (c : Char) :
    isAsciiUpper (asciiLowerChar c) = false := by
  unfold asciiLowerChar
  by_cases h : isAsciiUpper c = true
  · rw [if_pos h]
    unfold isAsciiUpper at h ⊢
    have h1 : 65 ≤ c.toNat ∧ c.toNat ≤ 90 := by simpa using h
    rw [toNat_ofNat_of_small (by omega)]
    simp only [Bool.and_eq_false_iff, decide_eq_false_iff_not]
    omega
  · rw [if_neg h]
    exact Bool.eq_false_iff.mpr h

theorem isAsciiUpper_goLowerChar (c : Char) :
    isAsciiUpper (goLowerChar c) = false := by
  unfold goLowerChar
  by_cases h1 : isAsciiUpper c = true
  · rw [if_pos h1]
    unfold isAsciiUpper at h1 ⊢
    have hb : 65 ≤ c.toNat ∧ c.toNat ≤ 90 := by simpa using h1
    rw [toNat_ofNat_of_small (by omega)]
    simp only [Bool.and_eq_false_iff, decide_eq_false_iff_not]
    omega
  · rw [if_neg h1]
    by_cases h2 : isCyrUpper c = true
    · rw [if_pos h2]
      unfold isCyrUpper at h2
      have hb : 1040 ≤ c.toNat ∧ c.toNat ≤ 1071 := by simpa using h2
      unfold isAsciiUpper
      rw [toNat_ofNat_of_small (by omega)]
      simp only [Bool.and_eq_false_iff, decide_eq_false_iff_not]
      omega
    · rw [if_neg h2]
      by_cases h3 : c = 'Ё'
      · rw [if_pos h3]; decide
      · rw [if_neg h3]
        exact Bool.eq_false_iff.mpr h1

theorem noAsciiUpper_sqlLower (s : String) : noAsciiUpper (sqlLower s).data := by
  intro c hc
  obtain ⟨c₀, _, rfl⟩ := List.mem_map.mp hc
  exact isAsciiUpper_asciiLowerChar c₀

theorem noAsciiUpper_goToLower (s : String) : noAsciiUpper (goToLower s).data := by
  intro c hc
  obtain ⟨c₀, _, rfl⟩ := List.mem_map.mp hc
  exact isAsciiUpper_goLowerChar c₀

theorem asciiLowerChar_noop {c : Char} (h : isAsciiUpper c = false) :
    asciiLowerChar c = c := by
  simp [asciiLowerChar, h]

/-- Go's `(count + limit - 1) / limit` is the mathematical ceiling for a
positive limit. -/
theorem goTotalPages_eq_ceil (n l : Nat) (h : 1 ≤ l) :
    goTotalPages n l = ceilSpec n l := by
  unfold goTotalPages ceilSpec
  obtain ⟨q, r, hr, rfl⟩ : ∃ q r, r < l ∧ n = l * q + r :=
    ⟨n / l, n % l, Nat.mod_lt _ h, (Nat.div_add_mod n l).symm⟩
  have hdiv : (l * q + r) / l = q := by
    rw [Nat.mul_add_div (by omega), Nat.div_eq_of_lt hr, Nat.add_zero]
  have hmod : (l * q + r) % l = r := by
    rw [Nat.mul_add_mod, Nat.mod_eq_of_lt hr]
  rw [hdiv, hmod]
  rcases Nat.eq_zero_or_pos r with h0 | hpos
  · subst h0
    rw [Nat.add_zero, Nat.add_sub_assoc h, Nat.mul_add_div (by omega),
      Nat.div_eq_of_lt (by omega)]
    simp
  · have harr : l * q + r + l - 1 = l * q + (r - 1 + l) := by omega
    rw [harr, Nat.mul_add_div (by omega), Nat.add_div_right _ (by omega),
      Nat.div_eq_of_lt (by omega)]
    have : ¬ r = 0 := by omega
    simp [this]

/-- C5: for `get_event`, an id that does not parse as a nonnegative
integer within the unsigned 32-bit range is a validation error, an id
that parses but matches no row is a distinct not-found error. -/
theorem C5_get_event_errors (idStr : String) (tbl : List Event) :
    (parseUint32 idStr = none → getEventModel idStr tbl = .invalidId) ∧
    (∀ n, parseUint32 idStr = some n →
      tbl.find? (fun e => e.id == n) = none →
      getEventModel idStr tbl = .notFound) ∧
    GetEventResult.invalidId ≠ GetEventResult.notFound := by
  refine ⟨fun h => ?_, fun n h1 h2 => ?_, by simp⟩
  · simp [getEventModel, h]
  · simp [getEventModel, h1, h2]

theorem C5_get_event_errors_witness :
    getEventModel "abc" [] = .invalidId ∧
    getEventModel "999999" [] = .notFound := by
  exact ⟨(C5_get_event_errors "abc" []).1 (by decide),
    (C5_get_event_errors "999999" []).2.1 999999 (by decide) rfl⟩

/-- C8: single-event create rejects exactly when the title is empty or
the date is the zero date; otherwise it persists the record with a
storage-assigned id and timestamps. -/
theorem C8_create_validation (body : Event) (tbl : List Event) (now : Nat) :
    (createEventModel body tbl now = .badRequest ↔
      body.title = "" ∨ body.date = zeroDate) ∧
    (body.title ≠ "" → body.date ≠ zeroDate → body.id = 0 →
      createEventModel body tbl now =
        .created { body with id := nextId tbl, createdAt := now, updatedAt := now }
          (tbl ++ [{ body with id := nextId tbl, createdAt := now, updatedAt := now }])) := by
  constructor
  · by_cases hA : body.title = "" ∨ body.date = zeroDate
    · simp [createEventModel, hA]
    · simp only [createEventModel, if_neg hA]
      constructor
      · intro h
        split at h <;> simp_all
      · intro h
        exact absurd h hA
  · intro h1 h2 h3
    have hA : ¬(body.title = "" ∨ body.date = zeroDate) := by
      rintro (h | h)
      exacts [h1 h, h2 h]
    have hB : ¬(body.id ≠ 0 ∧ tbl.any (fun e => e.id == body.id)) := by
      rintro ⟨hx, _⟩
      exact hx h3
    simp [createEventModel, hA, hB, h3]

theorem C8_create_validation_witness :
    createEventModel { sampleEvent with id := 0 } [] 5 =
      .created { sampleEvent with id := 1, createdAt := 5, updatedAt := 5 }
        [{ sampleEvent with id := 1, createdAt := 5, updatedAt := 5 }] ∧
    createEventModel { sampleEvent with title := "" } [] 5 = .badRequest := by
  constructor
  · exact (C8_create_validation { sampleEvent with id := 0 } [] 5).2
      (by decide) (by decide) rfl
  · exact (C8_create_validation { sampleEvent with title := "" } [] 5).1.mpr
      (Or.inl rfl)

theorem assignIds_titles_dates (bodies : List Event) (n now : Nat) :
    (assignIds bodies n now).map (fun e => (e.title, e.date)) =
      bodies.map (fun e => (e.title, e.date)) := by
  induction bodies generalizing n with
  | nil => rfl
  | cons b bs ih => simp [assignIds, ih]

theorem mem_le_maxId (tbl : List Event) : ∀ e ∈ tbl, e.id ≤ maxId tbl := by
  induction tbl with
  | nil => simp
  | cons x xs ih =>
    intro e he
    rcases List.mem_cons.mp he with rfl | h2
    · exact le_max_left _ _
    · exact le_trans (ih e h2) (le_max_right _ _)

theorem assignIds_ids_zero : ∀ (bodies : List Event) (now : Nat),
    (∀ b ∈ bodies, b.id = 0) →
    ∀ m, (assignIds bodies m now).map (fun e => e.id) =
      List.range' (m + 1) bodies.length
  | [], _, _ => fun _ => rfl
  | b :: bs, now, h => fun m => by
    have hb : b.id = 0 := h b (by simp)
    have ih := assignIds_ids_zero bs now (fun x hx => h x (by simp [hx])) (m + 1)
    have hmax : max m (m + 1) = m + 1 := Nat.max_eq_right (Nat.le_succ m)
    simp only [assignIds, if_pos hb, List.map_cons, hmax, ih, List.length_cons]
    rfl

/-- Batches of id-less records never collide: the assigned ids form the
strictly increasing run just above the table's largest id. -/
theorem batch_ids_nodup_of_zero (bodies tbl : List Event) (now : Nat)
    (hz : ∀ b ∈ bodies, b.id = 0)
    (hnd : (tbl.map (fun e => e.id)).Nodup) :
    (tbl.map (fun e => e.id) ++
      (assignIds bodies (maxId tbl) now).map (fun e => e.id)).Nodup := by
  rw [assignIds_ids_zero bodies now hz (maxId tbl)]
  refine hnd.append ?_ ?_
  · exact (List.pairwise_lt_range' _ _ 1 (by omega)).imp Nat.ne_of_lt
  · intro a ha hb
    obtain ⟨e, he, rfl⟩ := List.mem_map.mp ha
    rw [List.mem_range'_1] at hb
    have := mem_le_maxId tbl e he
    omega

/-- C10 (amended): a non-empty batch whose ids (explicit, or assigned to
id-less elements) are collision-free — in particular every batch of
id-less records on a table with distinct ids — is persisted in full
with no per-record validation of title or date: an element with an
empty title or a zero date is still inserted, unlike the same record
submitted through single-event create.  A batch with colliding ids
fails wholesale with a storage error and persists nothing. -/
theorem C10_batch_no_validation (bodies : List Event) (tbl : List Event) (now : Nat)
    (h : bodies ≠ []) :
    ((tbl.map (fun e => e.id) ++
        (assignIds bodies (maxId tbl) now).map (fun e => e.id)).Nodup →
      batchCreateModel bodies tbl now =
        .created bodies.length (tbl ++ assignIds bodies (maxId tbl) now)) ∧
    ((∀ b ∈ bodies, b.id = 0) → (tbl.map (fun e => e.id)).Nodup →
      batchCreateModel bodies tbl now =
        .created bodies.length (tbl ++ assignIds bodies (maxId tbl) now)) ∧
    (assignIds bodies (maxId tbl) now).map (fun e => (e.title, e.date)) =
      bodies.map (fun e => (e.title, e.date)) ∧
    (∀ b ∈ bodies, (b.title = "" ∨ b.date = zeroDate) →
      createEventModel b tbl now = .badRequest) := by
  have hok : (tbl.map (fun e => e.id) ++
      (assignIds bodies (maxId tbl) now).map (fun e => e.id)).Nodup →
      batchCreateModel bodies tbl now =
        .created bodies.length (tbl ++ assignIds bodies (maxId tbl) now) := by
    intro hnd
    have hbe : bodies.isEmpty = false := by
      cases bodies with
      | nil => exact absurd rfl h
      | cons x xs => rfl
    simp only [batchCreateModel]
    rw [if_neg (by simp [hbe]), if_pos hnd]
  refine ⟨hok, fun hz hnd => hok (batch_ids_nodup_of_zero bodies tbl now hz hnd),
    assignIds_titles_dates bodies (maxId tbl) now, ?_⟩
  intro b _ hbad
  simp [createEventModel, hbad]

theorem C10_batch_no_validation_witness :
    batchCreateModel [{ sampleEvent with id := 0, title := "" }] [] 7 =
      .created 1 [{ sampleEvent with id := 1, title := "", createdAt := 7, updatedAt := 7 }] ∧
    createEventModel { sampleEvent with id := 0, title := "" } [] 7 = .badRequest := by
  have h := C10_batch_no_validation [{ sampleEvent with id := 0, title := "" }] [] 7
    (by decide)
  exact ⟨h.2.1 (by decide) (by decide), h.2.2.2 _ (by simp) (Or.inl rfl)⟩

/-- C10 (counterexample): a non-empty batch of two records carrying the
same explicit id fails the primary-key constraint — the model (like
`db.Create`) reports a storage error and persists nothing — so the
claim's universal "the records are persisted" is false as stated. -/
theorem C10_counterexample :
    batchCreateModel
      [{ sampleEvent with id := 7 }, { adoptionEvent with id := 7 }] [] 9 =
      .storageError ∧
    ([{ sampleEvent with id := 7 }, { adoptionEvent with id := 7 }] : List Event) ≠ [] := by
  exact ⟨by decide, by decide⟩

theorem sanitizeFtsChars_eq_flatMap (cs : List Char) :
    sanitizeFtsChars cs = cs.flatMap (fun c => if c = '"' then ['"', '"'] else [c]) := by
  induction cs with
  | nil => rfl
  | cons c cs ih => by_cases h : c = '"' <;> simp [sanitizeFtsChars, h, ih]

theorem flatMap_id_of_no_quote (l : List Char) (h : ∀ c ∈ l, c ≠ '"') :
    l.flatMap (fun c => if c = '"' then ['"', '"'] else [c]) = l := by
  induction l with
  | nil => rfl
  | cons c cs ih =>
    rw [List.flatMap_cons, if_neg (h c (by simp)),
      ih (fun x hx => h x (by simp [hx]))]
    rfl

/-- C6 (amended): the search-query sanitization doubles every quotation
mark and passes every other character through unchanged; in particular
the other FTS5 operator characters and the bareword keywords reach the
index verbatim and keep their grammar meaning. -/
theorem C6_sanitize_only_quotes (q : String) :
    (sanitizeFtsQuery q).data =
      q.data.flatMap (fun c => if c = '"' then ['"', '"'] else [c]) ∧
    ((∀ c ∈ q.data, c ≠ '"') → sanitizeFtsQuery q = q) := by
  constructor
  · exact sanitizeFtsChars_eq_flatMap q.data
  · intro h
    show String.mk (sanitizeFtsChars q.data) = q
    rw [sanitizeFtsChars_eq_flatMap, flatMap_id_of_no_quote _ h]

theorem C6_sanitize_only_quotes_witness :
    sanitizeFtsQuery "cat OR (dog NEAR pizza)" = "cat OR (dog NEAR pizza)" :=
  (C6_sanitize_only_quotes "cat OR (dog NEAR pizza)").2 (by decide)

/-- C6 (counterexample): the claim that every grammar-altering character
is neutralized is false — only quotation marks are touched.  The
operator character `(` and the keyword `OR` survive sanitization
verbatim. -/
theorem C6_counterexample :
    sanitizeFtsQuery "(bitcoin OR dog" = "(bitcoin OR dog" ∧
    ftsOperatorChar '(' = true ∧
    "OR" ∈ ftsKeywords ∧
    ¬(∀ q : String, ∀ c ∈ (sanitizeFtsQuery q).data, ftsOperatorChar c = false) := by
  refine ⟨by decide, by decide, by decide, fun h => ?_⟩
  exact absurd (h "(" '(' (by decide)) (by decide)

/-- C1 (evaluation of the divergence): on a table holding one event
dated 2021-06-15, the request `year="2021", month="13"` returns no
events from the current `getAllEventsHandler` — the out-of-range month
becomes the never-true condition `strftime('%m', date) = '13'` instead
of being ignored — while the repository's earlier inline handler
validates the month, ignores it, and returns the 2021 event as the
claim (and the spec) state.  With the month filter absent the current
handler does apply the year filter. -/
theorem C1_invalid_filter_divergence :
    (getAllEventsCurrent [sampleEvent] "1" "20" "2021" "13" "").events = [] ∧
    (getAllEventsOld [sampleEvent] "1" "20" "2021" "13" "").events = [sampleEvent] ∧
    (getAllEventsCurrent [sampleEvent] "1" "20" "2021" "" "").events = [sampleEvent] ∧
    (getAllEventsCurrent [sampleEvent] "1" "20" "2022" "" "").events = [] := by
  refine ⟨by decide, by decide, by decide, by decide⟩

theorem one_le_parsePageChecked (s : String) : 1 ≤ parsePageChecked s := by
  unfold parsePageChecked
  split
  · omega
  · rename_i h
    have h2 : ¬ (goAtoi s).1 < 1 := fun hl => h (Or.inr hl)
    omega

theorem one_le_parseLimitChecked (s : String) : 1 ≤ parseLimitChecked s := by
  unfold parseLimitChecked
  split
  · omega
  · rename_i h
    have h2 : ¬ (goAtoi s).1 < 1 := fun hl => h (Or.inr hl)
    omega

theorem one_le_parsePageLoose (s : String) : 1 ≤ parsePageLoose s := by
  unfold parsePageLoose
  split
  · omega
  · omega

theorem one_le_parseLimitLoose (s : String) : 1 ≤ parseLimitLoose s := by
  unfold parseLimitLoose
  split
  · omega
  · omega

theorem wrap64_id (x : Int) (h1 : int64Min ≤ x) (h2 : x ≤ int64Max) :
    wrap64 x = x := by
  unfold wrap64
  unfold int64Min at h1
  unfold int64Max at h2
  rw [Int.emod_eq_of_lt (by omega) (by omega)]
  omega

/-- When the `int64` offset computation does not overflow, the slice
GORM/SQLite return is the plain drop/take slice at the mathematical
offset. -/
theorem sqlSlice_of_small (l : List Event) (P L : Int) (hP : 1 ≤ P) (hL : 1 ≤ L)
    (h : (P - 1) * L ≤ int64Max) :
    sqlSlice l (wrap64 ((P - 1) * L)) L =
      (l.drop ((P - 1) * L).toNat).take L.toNat := by
  have h0 : 0 ≤ (P - 1) * L := mul_nonneg (by omega) (by omega)
  unfold sqlSlice
  rw [wrap64_id _ (by unfold int64Min; omega) h]
  rcases h0.lt_or_eq with hlt | heq
  · rw [if_pos hlt]
  · rw [if_neg (by omega)]
    have h3 : ((P - 1) * L).toNat = 0 := by omega
    rw [h3]

theorem int_tdiv_ofNat (m n : Nat) :
    Int.tdiv (m : Int) (n : Int) = ((m / n : Nat) : Int) := rfl

/-- When `total + limit - 1` does not overflow, the `int64` last-page
computation is the mathematical ceiling. -/
theorem goLastPage_of_small (N : Nat) (L : Int) (hL : 1 ≤ L)
    (h : (N : Int) + L - 1 ≤ int64Max) :
    goLastPage (N : Int) L = (ceilSpec N L.toNat : Int) := by
  obtain ⟨Ln, rfl⟩ : ∃ n : Nat, L = (n : Int) := ⟨L.toNat, by omega⟩
  have hLn : 1 ≤ Ln := by exact_mod_cast hL
  unfold goLastPage
  rw [wrap64_id _ (by unfold int64Min; omega) h]
  have hcast : (N : Int) + (Ln : Int) - 1 = ((N + Ln - 1 : Nat) : Int) := by omega
  rw [hcast, int_tdiv_ofNat]
  have hg := goTotalPages_eq_ceil N Ln hLn
  unfold goTotalPages at hg
  rw [hg, Int.toNat_natCast]

/-- C3 (amended): for every listing, tag, or search request, a page (or
page-size) parameter whose `Atoi` fails — non-numeric, or numeric but
outside `int64` (a range error) — or whose value is below 1 is coerced
to 1 (resp. 20) in the handlers that check the parse error (tag and
search), while the error-discarding `getAllEventsHandler` coerces
values below 1 and otherwise uses `Atoi`'s returned value, which for an
out-of-range digit string is the clamped `int64` limit; every parsed
in-range value ≥ 1 is used as given.  Whenever the `int64` offset
`(page − 1) × page_size` does not overflow, the returned records are
exactly the slice of the ordered match list starting at that offset;
and whenever `total_matching + page_size − 1` does not overflow, the
reported last page equals `ceil(total_matching / page_size)`.  Beyond
those bounds the program's `int64` arithmetic wraps (see the
counterexample). -/
theorem C3_pagination_correct (pageStr limitStr yearStr monthStr dayStr tag q : String)
    (tbl : List Event) (rank : Nat → Int) (p : FtsRow → Bool) :
    ((goAtoi pageStr).2 = false ∨ (goAtoi pageStr).1 < 1 →
      parsePageChecked pageStr = 1) ∧
    ((goAtoi limitStr).2 = false ∨ (goAtoi limitStr).1 < 1 →
      parseLimitChecked limitStr = 20) ∧
    ((goAtoi pageStr).1 < 1 → parsePageLoose pageStr = 1) ∧
    ((goAtoi limitStr).1 < 1 → parseLimitLoose limitStr = 20) ∧
    ((goAtoi pageStr).2 = true → 1 ≤ (goAtoi pageStr).1 →
      parsePageChecked pageStr = (goAtoi pageStr).1 ∧
        parsePageLoose pageStr = (goAtoi pageStr).1) ∧
    ((goAtoi limitStr).2 = true → 1 ≤ (goAtoi limitStr).1 →
      parseLimitChecked limitStr = (goAtoi limitStr).1 ∧
        parseLimitLoose limitStr = (goAtoi limitStr).1) ∧
    ((parsePageLoose pageStr - 1) * parseLimitLoose limitStr ≤ int64Max →
      (getAllEventsCurrent tbl pageStr limitStr yearStr monthStr dayStr).events =
        ((sortByDateDesc (tbl.filter (currentFilter yearStr monthStr dayStr))).drop
          (((parsePageLoose pageStr - 1) * parseLimitLoose limitStr).toNat)).take
          (parseLimitLoose limitStr).toNat) ∧
    (((tbl.filter (currentFilter yearStr monthStr dayStr)).length : Int) +
        parseLimitLoose limitStr - 1 ≤ int64Max →
      (getAllEventsCurrent tbl pageStr limitStr yearStr monthStr
          dayStr).pagination.lastPage =
        (ceilSpec (tbl.filter (currentFilter yearStr monthStr dayStr)).length
          (parseLimitLoose limitStr).toNat : Int)) ∧
    ((getAllEventsCurrent tbl pageStr limitStr yearStr monthStr
        dayStr).pagination.currentPage = parsePageLoose pageStr ∧
      (getAllEventsCurrent tbl pageStr limitStr yearStr monthStr
        dayStr).pagination.perPage = parseLimitLoose limitStr ∧
      (getAllEventsCurrent tbl pageStr limitStr yearStr monthStr
        dayStr).pagination.total =
        ((tbl.filter (currentFilter yearStr monthStr dayStr)).length : Int)) ∧
    (tag ≠ "" → ∃ resp, getEventsByTag tbl tag pageStr limitStr = some resp ∧
      ((parsePageChecked pageStr - 1) * parseLimitChecked limitStr ≤ int64Max →
        resp.events = ((sortByDateDesc (tbl.filter (tagWhereFilter tag))).drop
          (((parsePageChecked pageStr - 1) * parseLimitChecked limitStr).toNat)).take
          (parseLimitChecked limitStr).toNat) ∧
      (((tbl.filter (tagWhereFilter tag)).length : Int) +
          parseLimitChecked limitStr - 1 ≤ int64Max →
        resp.pagination.lastPage =
          (ceilSpec (tbl.filter (tagWhereFilter tag)).length
            (parseLimitChecked limitStr).toNat : Int)) ∧
      resp.pagination.currentPage = parsePageChecked pageStr ∧
      resp.pagination.perPage = parseLimitChecked limitStr ∧
      resp.pagination.total = ((tbl.filter (tagWhereFilter tag)).length : Int)) ∧
    (q ≠ "" → ∃ resp, ftsSearchModel tbl rank p q pageStr limitStr = some resp ∧
      ((parsePageChecked pageStr - 1) * parseLimitChecked limitStr ≤ int64Max →
        resp.events = (((tbl.filter (fun e => p (ftsRowOf e))).insertionSort
            (rankAscRel rank)).drop
          (((parsePageChecked pageStr - 1) * parseLimitChecked limitStr).toNat)).take
          (parseLimitChecked limitStr).toNat) ∧
      (((tbl.filter (fun e => p (ftsRowOf e))).length : Int) +
          parseLimitChecked limitStr - 1 ≤ int64Max →
        resp.pagination.lastPage =
          (ceilSpec (tbl.filter (fun e => p (ftsRowOf e))).length
            (parseLimitChecked limitStr).toNat : Int)) ∧
      resp.pagination.currentPage = parsePageChecked pageStr ∧
      resp.pagination.perPage = parseLimitChecked limitStr ∧
      resp.pagination.total =
        ((tbl.filter (fun e => p (ftsRowOf e))).length : Int)) := by
  refine ⟨?_, ?_, ?_, ?_, ?_, ?_, ?_, ?_, ?_, ?_, ?_⟩
  · intro h
    unfold parsePageChecked
    rw [if_pos h]
  · intro h
    unfold parseLimitChecked
    rw [if_pos h]
  · intro h
    unfold parsePageLoose
    rw [if_pos h]
  · intro h
    unfold parseLimitLoose
    rw [if_pos h]
  · intro h1 h2
    constructor
    · unfold parsePageChecked
      rw [if_neg ?_]
      rintro (hf | hl)
      · rw [h1] at hf
        cases hf
      · omega
    · unfold parsePageLoose
      rw [if_neg (by omega)]
  · intro h1 h2
    constructor
    · unfold parseLimitChecked
      rw [if_neg ?_]
      rintro (hf | hl)
      · rw [h1] at hf
        cases hf
      · omega
    · unfold parseLimitLoose
      rw [if_neg (by omega)]
  · intro hov
    simp only [getAllEventsCurrent]
    exact sqlSlice_of_small _ _ _ (one_le_parsePageLoose pageStr)
      (one_le_parseLimitLoose limitStr) hov
  · intro hov
    simp only [getAllEventsCurrent]
    exact goLastPage_of_small _ _ (one_le_parseLimitLoose limitStr) hov
  · exact ⟨rfl, rfl, rfl⟩
  · intro htag
    simp only [getEventsByTag, if_neg htag]
    refine ⟨_, rfl, ?_, ?_, rfl, rfl, rfl⟩
    · intro hov
      exact sqlSlice_of_small _ _ _ (one_le_parsePageChecked pageStr)
        (one_le_parseLimitChecked limitStr) hov
    · intro hov
      exact goLastPage_of_small _ _ (one_le_parseLimitChecked limitStr) hov
  · intro hq
    simp only [ftsSearchModel, if_neg hq]
    refine ⟨_, rfl, ?_, ?_, rfl, rfl, rfl⟩
    · intro hov
      exact sqlSlice_of_small _ _ _ (one_le_parsePageChecked pageStr)
        (one_le_parseLimitChecked limitStr) hov
    · intro hov
      exact goLastPage_of_small _ _ (one_le_parseLimitChecked limitStr) hov

theorem C3_pagination_correct_witness :
    parsePageChecked "abc" = 1 ∧
    parsePageChecked "99999999999999999999" = 1 ∧
    parseLimitChecked "0" = 20 ∧
    (parsePageChecked "3" = 3 ∧ parsePageLoose "3" = 3) ∧
    (getAllEventsCurrent [] "3" "20" "" "" "").events = [] := by
  have h1 := C3_pagination_correct "abc" "0" "" "" "" "adoption" "q" []
    (fun _ => 0) (fun _ => true)
  have h2 := C3_pagination_correct "99999999999999999999" "20" "" "" "" "t" "q" []
    (fun _ => 0) (fun _ => true)
  have h3 := C3_pagination_correct "3" "20" "" "" "" "t" "q" []
    (fun _ => 0) (fun _ => true)
  refine ⟨h1.1 (by decide), h2.1 (by decide), h1.2.1 (by decide),
    h3.2.2.2.2.1 (by decide) (by decide), ?_⟩
  rw [h3.2.2.2.2.2.2.1 (by decide)]
  decide

/-- C3 (counterexample): with the perfectly Atoi-parseable page value
9223372036854775807 (the largest `int64`) and the default page size 20,
the program's offset `(page − 1) × limit` wraps to −40, GORM emits no
`OFFSET`, and the handler returns the *first* page — while the claim's
offset law predicts the page starting at the (astronomical)
mathematical offset, i.e. the empty page.  Likewise a valid page size
of 9223372036854775807 on a 2-row table makes
`totalEvents + limit − 1` wrap and the reported last page is −1, not
`ceil(2 / page_size) = 1`. -/
theorem C3_counterexample :
    parsePageLoose "9223372036854775807" = 9223372036854775807 ∧
    parseLimitLoose "20" = 20 ∧
    wrap64 ((9223372036854775807 - 1) * 20) = -40 ∧
    (getAllEventsCurrent [sampleEvent] "9223372036854775807" "20" "" "" "").events =
      [sampleEvent] ∧
    ((sortByDateDesc [sampleEvent]).drop
        (((9223372036854775807 - 1) * 20 : Int)).toNat).take ((20 : Int)).toNat =
      ([] : List Event) ∧
    (getAllEventsCurrent [sampleEvent, adoptionEvent] "1" "9223372036854775807"
        "" "" "").pagination.lastPage = -1 ∧
    (ceilSpec 2 9223372036854775807 : Int) = 1 := by
  refine ⟨by decide, by decide, by decide, by decide, by decide, by decide, by decide⟩

/-! ## Index synchronization lemmas (C2) -/

theorem ftsRowOf_rowid (e : Event) : (ftsRowOf e).rowid = e.id := rfl

/-- Replacing the unique row with id `i` corresponds exactly to the
update trigger's delete-old / insert-new on the index side. -/
theorem update_row_perm (events : List Event) (i : Nat)
    (hnd : (events.map (fun e => e.id)).Nodup)
    (hmem : ∃ e₀ ∈ events, e₀.id = i) (e1 : Event) :
    ((events.map (fun x => if x.id == i then e1 else x)).map ftsRowOf).Perm
      ((events.map ftsRowOf).filter (fun r => r.rowid != i) ++ [ftsRowOf e1]) := by
  induction events with
  | nil => simp at hmem
  | cons x xs ih =>
    simp only [List.map_cons, List.nodup_cons, List.mem_map] at hnd
    by_cases hx : x.id = i
    · have hxs : ∀ y ∈ xs, y.id ≠ i := by
        intro y hy hyi
        exact hnd.1 ⟨y, hy, by rw [hyi, hx]⟩
      have hxs_map : xs.map (fun y => if y.id == i then e1 else y) = xs := by
        conv_rhs => rw [← List.map_id xs]
        apply List.map_congr_left
        intro y hy
        rw [if_neg (show ¬((y.id == i) = true) from by simpa using hxs y hy)]
        rfl
      have hfilter : (xs.map ftsRowOf).filter (fun r => r.rowid != i) =
          xs.map ftsRowOf := by
        apply List.filter_eq_self.mpr
        intro r hr
        obtain ⟨y, hy, rfl⟩ := List.mem_map.mp hr
        simpa [ftsRowOf_rowid] using hxs y hy
      simp only [List.map_cons, hxs_map]
      rw [if_pos (show (x.id == i) = true from by simpa using hx)]
      rw [List.filter_cons,
        if_neg (show ¬(((ftsRowOf x).rowid != i) = true) from by
          simpa [ftsRowOf_rowid] using hx),
        hfilter]
      exact (List.perm_append_singleton _ _).symm
    · have hmem2 : ∃ e₀ ∈ xs, e₀.id = i := by
        obtain ⟨e₀, he₀, hei⟩ := hmem
        rcases List.mem_cons.mp he₀ with rfl | h2
        · exact absurd hei hx
        · exact ⟨e₀, h2, hei⟩
      simp only [List.map_cons]
      rw [if_neg (show ¬((x.id == i) = true) from by simpa using hx)]
      rw [List.filter_cons,
        if_pos (show ((ftsRowOf x).rowid != i) = true from by
          simpa [ftsRowOf_rowid] using hx)]
      exact (ih hnd.2 hmem2).cons (ftsRowOf x)

theorem update_row_ids (events : List Event) (i : Nat) (e1 : Event)
    (h1 : e1.id = i) :
    (events.map (fun x => if x.id == i then e1 else x)).map (fun e => e.id) =
      events.map (fun e => e.id) := by
  induction events with
  | nil => rfl
  | cons x xs ih =>
    by_cases hx : x.id = i
    · simp only [List.map_cons, ih]
      rw [if_pos (show (x.id == i) = true from by simpa using hx), h1, hx]
    · simp only [List.map_cons, ih]
      rw [if_neg (show ¬((x.id == i) = true) from by simpa using hx)]

theorem synced_applyOp {s : DBState} (h : Synced s) (op : DbOp) :
    Synced (applyOp s op) := by
  obtain ⟨hperm, hnd⟩ := h
  cases op with
  | ins e =>
    by_cases hin : s.events.any (fun x => x.id == e.id) = true
    · simpa [applyOp, hin] using And.intro hperm hnd
    · have hfresh : ∀ x ∈ s.events, x.id ≠ e.id := by
        intro x hx hxe
        exact hin (List.any_eq_true.mpr ⟨x, hx, by simpa using hxe⟩)
      simp only [applyOp, if_neg hin]
      constructor
      · rw [List.map_append]
        exact hperm.append (List.Perm.refl _)
      · rw [List.map_append]
        refine hnd.append (List.nodup_singleton _) ?_
        intro a ha hb
        obtain ⟨x, hx, rfl⟩ := List.mem_map.mp ha
        simp only [List.map_cons, List.map_nil, List.mem_singleton] at hb
        exact hfresh x hx hb
  | del i =>
    constructor
    · show ((s.fts.filter _).Perm ((s.events.filter _).map ftsRowOf))
      have h1 := hperm.filter (fun r => r.rowid != i)
      have h2 : (s.events.map ftsRowOf).filter (fun r => r.rowid != i) =
          (s.events.filter (fun x => x.id != i)).map ftsRowOf := by
        rw [List.filter_map]
        rfl
      rw [h2] at h1
      exact h1
    · show ((s.events.filter _).map (fun e => e.id)).Nodup
      refine List.Nodup.sublist ?_ hnd
      exact (List.filter_sublist _).map _
  | upd i patch now =>
    cases hfind : s.events.find? (fun x => x.id == i) with
    | none => simpa [applyOp, hfind] using And.intro hperm hnd
    | some e₀ =>
      have hmem : e₀ ∈ s.events := List.mem_of_find?_eq_some hfind
      have hid : e₀.id = i := by simpa using List.find?_some hfind
      simp only [applyOp, hfind]
      constructor
      · refine List.Perm.trans ?_ (update_row_perm s.events i hnd ⟨e₀, hmem, hid⟩
          (applyPatch e₀ patch now)).symm
        exact (hperm.filter _).append (List.Perm.refl _)
      · rw [update_row_ids s.events i (applyPatch e₀ patch now) (by simp [applyPatch, hid])]
        exact hnd

theorem synced_initState : Synced initState := by
  constructor <;> simp [initState]

theorem synced_runOps (ops : List DbOp) : Synced (runOps ops) := by
  have h : ∀ s, Synced s → Synced (List.foldl applyOp s ops) := by
    induction ops with
    | nil => exact fun s hs => hs
    | cons o os ih => exact fun s hs => ih _ (synced_applyOp hs o)
  exact h initState synced_initState

theorem searchIds_mem_iff {s : DBState} (h : Synced s) (p : FtsRow → Bool) (i : Nat) :
    i ∈ searchIds p s ↔ ∃ e ∈ s.events, e.id = i ∧ p (ftsRowOf e) = true := by
  unfold searchIds
  constructor
  · intro hi
    obtain ⟨r, hr, hri⟩ := List.mem_map.mp hi
    have hr2 := List.mem_filter.mp hr
    have hr3 : r ∈ s.events.map ftsRowOf := h.1.mem_iff.mp hr2.1
    obtain ⟨e, he, rfl⟩ := List.mem_map.mp hr3
    exact ⟨e, he, hri, hr2.2⟩
  · rintro ⟨e, he, rfl, hp⟩
    refine List.mem_map.mpr ⟨ftsRowOf e, List.mem_filter.mpr ⟨?_, hp⟩, rfl⟩
    exact h.1.mem_iff.mpr (List.mem_map_of_mem _ he)

/-- C2: after every sequence of successful create / update / delete
operations on one variant's store, a search-rank query reflects exactly
the current table: an id is reported for a match predicate `p` (the
FTS5 `MATCH` over title/description/tags, abstracted) precisely when the
table currently holds a row with that id whose indexed text satisfies
`p`.  With the id uniqueness also proved here this gives the claim: a
deleted event's id never appears, an updated event is found through its
new text, and is no longer found through text its current row does not
match. -/
theorem C2_search_reflects_table (ops : List DbOp) (p : FtsRow → Bool) (i : Nat) :
    (i ∈ searchIds p (runOps ops) ↔
      ∃ e ∈ (runOps ops).events, e.id = i ∧ p (ftsRowOf e) = true) ∧
    ((runOps ops).events.map (fun e => e.id)).Nodup :=
  ⟨searchIds_mem_iff (synced_runOps ops) p i, (synced_runOps ops).2⟩

/-! ## Search-order determinism (C9) -/

/-- C9 (counterexample): the search query orders only by `fts.rank` with
no tie-break, so for an index holding two rows with identical text —
hence identical rank — both result orders satisfy everything the query
requires.  The claim that the result order is determined (so that two
runs necessarily agree and page concatenation is stable) is therefore
false at this concrete state. -/
theorem C9_counterexample :
    searchOutputValid [ftsRowA, ftsRowB] (fun _ => -1) (fun _ => true)
      [ftsRowA, ftsRowB] ∧
    searchOutputValid [ftsRowA, ftsRowB] (fun _ => -1) (fun _ => true)
      [ftsRowB, ftsRowA] ∧
    [ftsRowA, ftsRowB] ≠ [ftsRowB, ftsRowA] := by
  refine ⟨⟨by decide, by decide⟩, ⟨by decide, by decide⟩, by decide⟩

/-- C9 (amended): the code determines the result order only up to rank:
any two outputs that satisfy the query contain the same rows and carry
the same rank sequence, so they differ at most by the relative order of
equal-rank rows. -/
theorem C9_deterministic_up_to_rank (rows : List FtsRow) (rank : Nat → Int)
    (p : FtsRow → Bool) (out1 out2 : List FtsRow)
    (h1 : searchOutputValid rows rank p out1)
    (h2 : searchOutputValid rows rank p out2) :
    out1.Perm out2 ∧
      out1.map (fun r => rank r.rowid) = out2.map (fun r => rank r.rowid) := by
  obtain ⟨hp1, hs1⟩ := h1
  obtain ⟨hp2, hs2⟩ := h2
  have hperm : out1.Perm out2 := hp1.trans hp2.symm
  refine ⟨hperm, ?_⟩
  have hm1 : (out1.map (fun r => rank r.rowid)).Sorted (· ≤ ·) :=
    List.Pairwise.map _ (fun _ _ h => h) hs1
  have hm2 : (out2.map (fun r => rank r.rowid)).Sorted (· ≤ ·) :=
    List.Pairwise.map _ (fun _ _ h => h) hs2
  exact List.eq_of_perm_of_sorted (hperm.map (fun r => rank r.rowid)) hm1 hm2

theorem C9_deterministic_up_to_rank_witness :
    ([ftsRowA] : List FtsRow).Perm [ftsRowA] ∧
      [ftsRowA].map (fun r => (fun _ : Nat => (-1 : Int)) r.rowid) =
        [ftsRowA].map (fun r => (fun _ : Nat => (-1 : Int)) r.rowid) :=
  C9_deterministic_up_to_rank [ftsRowA] (fun _ => -1) (fun _ => true)
    [ftsRowA] [ftsRowA] ⟨by decide, by decide⟩ ⟨by decide, by decide⟩

/-! ## Tag aggregation (C4) -/

theorem sorted_sortStrings (l : List String) : (sortStrings l).Sorted strLe :=
  List.sorted_insertionSort _ l

theorem perm_sortStrings (l : List String) : (sortStrings l).Perm l :=
  List.perm_insertionSort _ l

/-- C4 (amended): `list_tags` returns one pair per distinct lowercased
contributing entry, sorted ascending in the binary collation, and the
count of a tag is exactly its number of occurrences among the
contributing entries — where a row contributes nothing unless its tags
column is non-null, non-empty, not `"[]"`, valid JSON and an array, and
an entry contributes nothing when it is JSON `null` or its text is empty
or consists only of *space* characters (`rowTagsLowered`; SQLite `TRIM`
strips spaces only, so an entry of other whitespace such as a tab is
counted, which is the one correction to the claim). -/
theorem C4_tag_aggregation (tbl : List Event) :
    ((getTagsModel tbl).map Prod.fst).Sorted strLe ∧
    ((getTagsModel tbl).map Prod.fst).Nodup ∧
    (∀ t c, (t, c) ∈ getTagsModel tbl ↔
      ((tbl.flatMap rowTagsLowered).count t = c ∧ 0 < c)) := by
  have hfst : (getTagsModel tbl).map Prod.fst =
      (sortStrings (tbl.flatMap rowTagsLowered)).dedup := by
    unfold getTagsModel
    simp only [List.map_map]
    rw [show (Prod.fst ∘ fun t => (t, List.count t (tbl.flatMap rowTagsLowered))) = id
      from rfl, List.map_id]
  refine ⟨?_, ?_, ?_⟩
  · rw [hfst]
    exact List.Pairwise.sublist (List.dedup_sublist _) (sorted_sortStrings _)
  · rw [hfst]
    exact List.nodup_dedup _
  · intro t c
    unfold getTagsModel
    constructor
    · intro h
      obtain ⟨k, hk, heq⟩ := List.mem_map.mp h
      injection heq with h1 h2
      subst h1
      subst h2
      exact ⟨rfl, List.count_pos_iff.mpr
        ((perm_sortStrings _).mem_iff.mp (List.mem_dedup.mp hk))⟩
    · rintro ⟨rfl, hpos⟩
      exact List.mem_map.mpr ⟨t,
        List.mem_dedup.mpr ((perm_sortStrings _).mem_iff.mpr
          (List.count_pos_iff.mp hpos)), rfl⟩

/-- C4 (counterexample): on a row whose tags array holds the single
entry `"\t"` (a tab character), the aggregation of the code counts the
tag `"\t"` once — SQLite's `TRIM` strips only spaces, so the tab-only
entry survives the emptiness guard — while the claim's rule (empty *or
whitespace-only* entries contribute nothing) yields no tags at all. -/
theorem C4_counterexample :
    getTagsModel [tabTagEvent] = [("\t", 1)] ∧
    getTagsClaimStated [tabTagEvent] = [] ∧
    getTagsModel [tabTagEvent] ≠ getTagsClaimStated [tabTagEvent] := by
  refine ⟨by decide, by decide, by decide⟩

/-! ## LIKE-based tag filter (C7) -/

theorem litMatch_eq_iff : ∀ (a b : List Char), noAsciiUpper a → noAsciiUpper b →
    (litMatch a b = true ↔ a = b)
  | [], [] => fun _ _ => by simp [litMatch]
  | [], _ :: _ => fun _ _ => by simp [litMatch]
  | _ :: _, [] => fun _ _ => by simp [litMatch]
  | p :: ps, c :: cs => fun ha hb => by
    have hp := asciiLowerChar_noop (ha p (by simp))
    have hc := asciiLowerChar_noop (hb c (by simp))
    simp only [litMatch, Bool.and_eq_true, likeCharEq, hp, hc, beq_iff_eq]
    rw [litMatch_eq_iff ps cs (fun x hx => ha x (by simp [hx]))
      (fun x hx => hb x (by simp [hx]))]
    simp [List.cons.injEq]

theorem likeMatch_lit_pct : ∀ (core : List Char), (∀ c ∈ core, c ≠ '%' ∧ c ≠ '_') →
    ∀ t : List Char, (likeMatch (core ++ ['%']) t = true ↔
      core.length ≤ t.length ∧ litMatch core (t.take core.length) = true)
  | [], _ => fun t => by
    constructor
    · intro _
      exact ⟨Nat.zero_le _, rfl⟩
    · intro _
      show likeMatch ('%' :: []) t = true
      simp only [likeMatch, if_true]
      rw [List.any_eq_true]
      refine ⟨t.length, ?_, ?_⟩
      · simp [List.mem_range]
      · simp
  | p :: ps, hc => fun t => by
    have hp : p ≠ '%' := (hc p (by simp)).1
    have hp2 : p ≠ '_' := (hc p (by simp)).2
    cases t with
    | nil => simp [likeMatch, hp, hp2]
    | cons c cs =>
      have ih := likeMatch_lit_pct ps (fun x hx => hc x (by simp [hx])) cs
      simp only [List.cons_append, likeMatch, if_neg hp, if_neg hp2, List.append_eq]
      rw [Bool.and_eq_true, ih]
      constructor
      · rintro ⟨h1, h2, h3⟩
        refine ⟨Nat.succ_le_succ h2, ?_⟩
        simp [List.take_succ_cons, litMatch, h1, h3]
      · rintro ⟨h1, h2⟩
        rw [List.length_cons, List.length_cons, Nat.succ_le_succ_iff] at h1
        rw [List.length_cons, List.take_succ_cons] at h2
        simp only [litMatch, Bool.and_eq_true] at h2
        exact ⟨h2.1, h1, h2.2⟩

theorem noAsciiUpper_take_drop (t : List Char) (htu : noAsciiUpper t) (n m : Nat) :
    noAsciiUpper ((t.drop n).take m) := by
  intro c hcm
  exact htu c (List.mem_of_mem_drop (List.mem_of_mem_take hcm))

/-- `LIKE '%x%'` for a wildcard-free, capital-free `x` over a
capital-free text is exactly substring occurrence. -/
theorem likeMatch_pct_wrap (core t : List Char)
    (hc : ∀ c ∈ core, c ≠ '%' ∧ c ≠ '_')
    (hcu : noAsciiUpper core) (htu : noAsciiUpper t) :
    (likeMatch ('%' :: (core ++ ['%'])) t = true ↔
      ∃ pre suf, t = pre ++ core ++ suf) := by
  rw [show likeMatch ('%' :: (core ++ ['%'])) t =
      (List.range (t.length + 1)).any (fun n => likeMatch (core ++ ['%']) (t.drop n))
    from by simp [likeMatch]]
  rw [List.any_eq_true]
  constructor
  · rintro ⟨n, _, hm⟩
    rw [likeMatch_lit_pct core hc] at hm
    obtain ⟨hlen, hlit⟩ := hm
    have heq : (t.drop n).take core.length = core :=
      ((litMatch_eq_iff core _ hcu (noAsciiUpper_take_drop t htu n _)).mp hlit).symm
    refine ⟨t.take n, (t.drop n).drop core.length, ?_⟩
    have hsplit : t.drop n = core ++ (t.drop n).drop core.length := by
      conv_lhs => rw [← List.take_append_drop core.length (t.drop n)]
      rw [heq]
    conv_lhs => rw [← List.take_append_drop n t, hsplit]
    rw [List.append_assoc]
  · rintro ⟨pre, suf, rfl⟩
    refine ⟨pre.length, ?_, ?_⟩
    · rw [List.mem_range]
      simp only [List.append_assoc, List.length_append]
      omega
    · rw [likeMatch_lit_pct core hc]
      have hdrop : (pre ++ core ++ suf).drop pre.length = core ++ suf := by
        rw [List.append_assoc, List.drop_left]
      rw [hdrop]
      refine ⟨by simp, ?_⟩
      rw [List.take_left]
      exact (litMatch_eq_iff core core hcu hcu).mpr rfl

theorem goLowerChar_no_wild (c : Char) (h1 : c ≠ '%') (h2 : c ≠ '_') :
    goLowerChar c ≠ '%' ∧ goLowerChar c ≠ '_' := by
  unfold goLowerChar
  by_cases ha : isAsciiUpper c = true
  · rw [if_pos ha]
    have hb : 65 ≤ c.toNat ∧ c.toNat ≤ 90 := by simpa [isAsciiUpper] using ha
    constructor <;> intro hEq <;> (
      have h3 := congrArg Char.toNat hEq
      rw [toNat_ofNat_of_small (by omega)] at h3
      revert h3)
    · show c.toNat + 32 = ('%').toNat → False
      intro h3
      rw [show ('%').toNat = 37 from rfl] at h3
      omega
    · show c.toNat + 32 = ('_').toNat → False
      intro h3
      rw [show ('_').toNat = 95 from rfl] at h3
      omega
  · rw [if_neg ha]
    by_cases hcy : isCyrUpper c = true
    · rw [if_pos hcy]
      have hb : 1040 ≤ c.toNat ∧ c.toNat ≤ 1071 := by simpa [isCyrUpper] using hcy
      constructor <;> intro hEq <;> (
        have h3 := congrArg Char.toNat hEq
        rw [toNat_ofNat_of_small (by omega)] at h3
        revert h3)
      · show c.toNat + 32 = ('%').toNat → False
        intro h3
        rw [show ('%').toNat = 37 from rfl] at h3
        omega
      · show c.toNat + 32 = ('_').toNat → False
        intro h3
        rw [show ('_').toNat = 95 from rfl] at h3
        omega
    · rw [if_neg hcy]
      by_cases hyo : c = 'Ё'
      · rw [if_pos hyo]
        exact ⟨by decide, by decide⟩
      · rw [if_neg hyo]
        exact ⟨h1, h2⟩

theorem tagPattern_data (tag : String) :
    (tagPattern tag).data = '%' :: (('"' :: (goToLower tag).data ++ ['"']) ++ ['%']) := by
  show ("%\"" ++ goToLower tag ++ "\"%").data = _
  rw [String.data_append, String.data_append]
  simp [List.append_assoc]

/-- C7 (amended): for a non-empty tag free of `LIKE` wildcards, a stored
event passes the tag filter exactly when the quoted tag — lowercased by
Go's Unicode `strings.ToLower` — occurs as a substring of the stored
tags text lowercased only in its ASCII letters (SQLite `LOWER`); the
returned page is sorted by date descending and consists of matching
events.  For ASCII tags the two lowercasings coincide and this is the
claim's quoted-substring rule; they differ on non-ASCII capitals. -/
theorem C7_tag_filter (tbl : List Event) (tag pageStr limitStr : String)
    (htag : tag ≠ "") (hw : noWildcards tag) :
    (∀ e ∈ tbl, (tagWhereFilter tag e = true ↔
      ∃ t, e.tags = some t ∧ mixedTagMatch tag t)) ∧
    (∃ resp, getEventsByTag tbl tag pageStr limitStr = some resp ∧
      resp.events.Sorted dateDescRel ∧
      (∀ e ∈ resp.events, tagWhereFilter tag e = true)) := by
  have hcore_wild : ∀ c ∈ '"' :: (goToLower tag).data ++ ['"'], c ≠ '%' ∧ c ≠ '_' := by
    intro c hcm
    rcases List.mem_cons.mp hcm with rfl | h2
    · exact ⟨by decide, by decide⟩
    · rcases List.mem_append.mp h2 with h3 | h3
      · obtain ⟨c₀, hc₀, rfl⟩ := List.mem_map.mp h3
        exact goLowerChar_no_wild c₀ (hw c₀ hc₀).1 (hw c₀ hc₀).2
      · rw [List.mem_singleton.mp h3]
        exact ⟨by decide, by decide⟩
  have hcore_up : noAsciiUpper ('"' :: (goToLower tag).data ++ ['"']) := by
    intro c hcm
    rcases List.mem_cons.mp hcm with rfl | h2
    · decide
    · rcases List.mem_append.mp h2 with h3 | h3
      · exact noAsciiUpper_goToLower tag c h3
      · rw [List.mem_singleton.mp h3]
        decide
  have hfilter : ∀ e : Event, (tagWhereFilter tag e = true ↔
      ∃ t, e.tags = some t ∧ mixedTagMatch tag t) := by
    intro e
    cases he : e.tags with
    | none => simp [tagWhereFilter, he]
    | some t =>
      unfold tagWhereFilter
      rw [he, tagPattern_data]
      rw [likeMatch_pct_wrap _ _ hcore_wild hcore_up (noAsciiUpper_sqlLower t)]
      unfold mixedTagMatch
      constructor
      · rintro ⟨pre, suf, hsp⟩
        exact ⟨t, rfl, pre, suf, hsp⟩
      · rintro ⟨t', ht', pre, suf, hsp⟩
        injection ht' with ht'
        subst ht'
        exact ⟨pre, suf, hsp⟩
  refine ⟨fun e _ => hfilter e, ?_⟩
  simp only [getEventsByTag, if_neg htag]
  refine ⟨_, rfl, ?_, ?_⟩
  · exact List.Pairwise.sublist
      ((List.take_sublist _ _).trans (List.drop_sublist _ _))
      (List.sorted_insertionSort dateDescRel _)
  · intro e hmem
    have h1 : e ∈ sortByDateDesc (tbl.filter (tagWhereFilter tag)) :=
      List.mem_of_mem_drop (List.mem_of_mem_take hmem)
    have h2 : e ∈ tbl.filter (tagWhereFilter tag) :=
      (List.perm_insertionSort dateDescRel _).mem_iff.mp h1
    exact (List.mem_filter.mp h2).2

theorem C7_tag_filter_witness :
    tagWhereFilter "adoption" adoptionEvent = true := by
  have h := (C7_tag_filter [adoptionEvent] "adoption" "1" "20" (by decide)
    (by unfold noWildcards; decide)).1 adoptionEvent (by simp)
  refine h.mpr ⟨"[\"first\",\"adoption\"]", rfl,
    "[\"first\",".data, "]".data, by decide⟩

/-- C7 (counterexample): for the Cyrillic tag `Лайтнинг` stored
verbatim, the claim's uniform-lowercase quoted-substring rule says the
event matches (the quoted lowercased tag does occur in the lowercased
raw text), but the code's filter rejects it: Go lowercases the query tag
to `лайтнинг` while SQLite's `LOWER` leaves the stored `Лайтнинг`
unchanged, so the `LIKE` never fires and the handler returns no
events. -/
theorem C7_counterexample :
    tagWhereFilter "Лайтнинг" cyrTagEvent = false ∧
    claimTagMatch "Лайтнинг" "[\"Лайтнинг\"]" ∧
    (getEventsByTag [cyrTagEvent] "Лайтнинг" "1" "20").map (fun r => r.events) =
      some [] := by
  refine ⟨by decide, ⟨['['], [']'], by decide⟩, by decide⟩

end CalendarApi
